import Mathlib

/-!
Verification of the platform-dispatch layer of a BLAKE3-style hashing engine
(src/platform.rs): runtime capability detection, SIMD degree selection, and
dispatch of single-block compression and of batched multi-input compression
(hash_many) to the portable reference implementation or to the accelerated
SSE4.1 / AVX2 implementations.

The dispatcher itself (the Platform enum, detect, simd_degree, compress,
hash_many, and the two capability probes) is embedded from src/platform.rs.
The compression implementations that the dispatcher routes to (the portable,
sse41 and avx2 modules) are not among the sources under verification; they
are modelled from the specification, which fixes their observable contract:
a deterministic total compression function, byte-identical across all
implementations, and a batched hash_many whose per-input results equal a
purely sequential scalar execution.
-/

/-- BLOCK_LEN from the crate root: bytes per compression block. -/
def BLOCK_LEN : Nat := 64

/-- KEY_LEN from the crate root: bytes per key and per chaining value. -/
def KEY_LEN : Nat := 32

/-- A byte, modelled as a natural number; produced values are taken mod 256. -/
abbrev Byte := Nat

/-- A 32-byte chaining value, indexed by byte position. -/
abbrev CV := Fin 32 → Byte

/-- A 64-byte message block, indexed by byte position. -/
abbrev Block := Fin 64 → Byte

/-- The raw 64-byte compression-function output. -/
abbrev Out64 := Fin 64 → Byte

/-- Domain-separation flag bits; the dispatcher hands the numeric bits to the
compression layer via the bits accessor, mirroring flags.bits() in the
source. -/
structure Flags where
  bits : Nat
deriving DecidableEq, Repr

/-- Build architecture: x86 covers both the x86 and x86_64 cfg gates of
src/platform.rs; other covers every architecture with no accelerated path. -/
inductive Arch
  | x86
  | other
deriving DecidableEq, Repr

/-- Processor capabilities, fixed for the process lifetime: what the static
target-feature checks and the dynamic feature checks of the source report. -/
structure CpuFeatures where
  avx2 : Bool
  sse41 : Bool
deriving DecidableEq, Repr

/-- MAX_SIMD_DEGREE (src/platform.rs lines 6-9): 8 on x86 and x86_64,
1 on every other architecture. -/
def MAX_SIMD_DEGREE : Arch → Nat
  | .x86 => 8
  | .other => 1

/-- The Platform enum (src/platform.rs lines 11-18). The SSE41 and AVX2
variants are declared only under the x86 and x86_64 cfg gates. -/
inductive Platform
  | Portable
  | SSE41
  | AVX2
deriving DecidableEq, Repr

/-- Which variants exist under each cfg gate: Portable everywhere, SSE41 and
AVX2 only in x86 and x86_64 builds (src/platform.rs lines 14-17). -/
def Platform.availableOn : Platform → Arch → Bool
  | .Portable, _ => true
  | _, .x86 => true
  | _, .other => false

/-- avx2_detected (src/platform.rs lines 128-144): the static target-feature
check and the dynamic std check both report whether the processor supports
AVX2, so detection reduces to the fixed capability bit. -/
def avx2_detected (c : CpuFeatures) : Bool := c.avx2

/-- sse41_detected (src/platform.rs lines 146-162): as avx2_detected, for the
SSE4.1 capability bit. -/
def sse41_detected (c : CpuFeatures) : Bool := c.sse41

/-- Platform::detect (src/platform.rs lines 21-32): on x86 and x86_64, probe
AVX2 first, then SSE4.1; everywhere else, and when no probe succeeds, return
Portable. -/
def Platform.detect (arch : Arch) (c : CpuFeatures) : Platform :=
  match arch with
  | .x86 =>
      if avx2_detected c then .AVX2
      else if sse41_detected c then .SSE41
      else .Portable
  | .other => .Portable

/-- Platform::simd_degree (src/platform.rs lines 34-44). -/
def Platform.simd_degree : Platform → Nat
  | .Portable => 1
  | .SSE41 => 4
  | .AVX2 => 8

/-- Modelled from the spec: the portable reference compression function
(the portable module routed to from src/platform.rs line 55 is not among
the sources under verification). The spec fixes only its contract: a
deterministic total function of the chaining value, the block bytes up to
block_len, block_len itself, the counter and the flag bits, producing 64
bytes, with no dependence on padding bytes beyond block_len. The concrete
mixing below is a stand-in satisfying exactly that contract; the dispatch
theorems do not depend on its internals. -/
def portable.compress (cv : CV) (block : Block) (block_len : Nat)
    (counter : Nat) (flags : Nat) : Out64 :=
  let mix := ((List.ofFn block).take block_len).foldl
    (fun a b => (a * 33 + b) % 4294967296) (block_len + flags)
  fun k => (cv ⟨k.val % 32, Nat.mod_lt _ (by omega)⟩ + mix + counter * (k.val + 1)) % 256

/-- Modelled from the spec: the SSE4.1 compression implementation (the sse41
module routed to from src/platform.rs line 59 is not among the sources under
verification). The spec requires every accelerated implementation to produce
byte-identical output to the portable reference for identical inputs, so the
SSE4.1 scalar compression is modelled as that very function. -/
def sse41.compress : CV → Block → Nat → Nat → Nat → Out64 :=
  portable.compress

/-- Platform::compress (src/platform.rs lines 46-62): Portable routes to the
portable implementation; the SSE41 and AVX2 variants share one match arm and
both route to the SSE4.1 implementation; flags are passed as bits. -/
def Platform.compress (p : Platform) (cv : CV) (block : Block)
    (block_len : Nat) (offset : Nat) (flags : Flags) : Out64 :=
  match p with
  | .Portable => portable.compress cv block block_len offset flags.bits
  | .SSE41 | .AVX2 => sse41.compress cv block block_len offset flags.bits

/-- The shape of a scalar compression function, flags already as bits. -/
abbrev CompressFn := CV → Block → Nat → Nat → Nat → Out64

/-- The first 32 bytes of a 64-byte compression output: the chaining value
carried to the next block. -/
def first32 (o : Out64) : CV := fun i => o (Fin.castLE (by omega) i)

/-- Counter for the input at absolute index i in a hash_many call: the base
offset plus the delta drawn from the 16-entry offset_deltas table. -/
def counterFor (offset : Nat) (deltas : Fin 16 → Nat) (i : Nat) : Nat :=
  offset + deltas ⟨i % 16, Nat.mod_lt _ (by omega)⟩

/-- Sequential scalar chaining over the non-first blocks of one input: each
block is compressed with the running chaining value and the interior flags,
and the last block additionally carries the end flags. -/
def chainBlocks (f : CompressFn) (cv : CV) (bs : List Block)
    (counter flags fend : Nat) : CV :=
  match bs with
  | [] => cv
  | [b] => first32 (f cv b BLOCK_LEN counter (flags ||| fend))
  | b :: b2 :: rest =>
      chainBlocks f (first32 (f cv b BLOCK_LEN counter flags)) (b2 :: rest)
        counter flags fend

/-- Sequential scalar hashing of the block sequence of one input: the
chaining value starts at the key, the start flags are ORed into the first
block, the end flags into the last block, and every block shares the counter
of the input. -/
def hashOne (f : CompressFn) (blocks : List Block) (key : CV)
    (counter flags fstart fend : Nat) : CV :=
  match blocks with
  | [] => key
  | [b] => first32 (f key b BLOCK_LEN counter (flags ||| fstart ||| fend))
  | b :: b2 :: rest =>
      chainBlocks f (first32 (f key b BLOCK_LEN counter (flags ||| fstart)))
        (b2 :: rest) counter flags fend

/-- One chaining value per input, in input order, the input at list position
j of a call starting at absolute index i0 receiving counter
counterFor offset deltas (i0 + j): the purely sequential scalar semantics of
hash_many. -/
def mapHashFrom (f : CompressFn) (key : CV) (offset : Nat)
    (deltas : Fin 16 → Nat) (flags fstart fend : Nat) :
    List (List Block) → Nat → List CV
  | [], _ => []
  | x :: rest, i0 =>
      hashOne f x key (counterFor offset deltas i0) flags fstart fend
        :: mapHashFrom f key offset deltas flags fstart fend rest (i0 + 1)

/-- Modelled from the spec: hash_many of the portable module (routed to from
src/platform.rs line 86, not among the sources under verification). The spec
defines its output as the sequential scalar per-input result. -/
def portable.hash_many (inputs : List (List Block)) (key : CV) (offset : Nat)
    (deltas : Fin 16 → Nat) (flags fstart fend : Nat) : List CV :=
  mapHashFrom portable.compress key offset deltas flags fstart fend inputs 0

/-- Modelled from the spec: batched lock-step processing at width d. Full
batches of d inputs are processed lane-parallel, each lane producing the
scalar per-input result (the spec requires the transposed internal layout to
leave the observable per-input result unchanged); the leftover inputs, fewer
than one full batch width, fall back to the scalar path built on the
fallback compression function fb. -/
def batchedHashMany (lane fb : CompressFn) (d : Nat) (key : CV)
    (offset : Nat) (deltas : Fin 16 → Nat) (flags fstart fend : Nat) :
    List (List Block) → Nat → List CV
  | inputs, i0 =>
    if h : 0 < d ∧ d ≤ inputs.length then
      mapHashFrom lane key offset deltas flags fstart fend (inputs.take d) i0
        ++ batchedHashMany lane fb d key offset deltas flags fstart fend
            (inputs.drop d) (i0 + d)
    else
      mapHashFrom fb key offset deltas flags fstart fend inputs i0
  termination_by inputs _ => inputs.length
  decreasing_by
    obtain ⟨h1, h2⟩ := h
    simp [List.length_drop]
    omega

/-- Modelled from the spec: hash_many of the sse41 module (routed to from
src/platform.rs line 99, not among the sources under verification): batch
width 4, lanes computing the SSE4.1 scalar result, leftovers falling back
through the SSE4.1 scalar compression. -/
def sse41.hash_many (inputs : List (List Block)) (key : CV) (offset : Nat)
    (deltas : Fin 16 → Nat) (flags fstart fend : Nat) : List CV :=
  batchedHashMany sse41.compress sse41.compress 4 key offset deltas
    flags fstart fend inputs 0

/-- Modelled from the spec: hash_many of the avx2 module (routed to from
src/platform.rs line 113, not among the sources under verification): batch
width 8, each lane producing output byte-identical to the portable scalar
result, leftovers falling back through the scalar compression path, which
for the AVX2 variant is the SSE4.1 implementation (src/platform.rs line
58). -/
def avx2.hash_many (inputs : List (List Block)) (key : CV) (offset : Nat)
    (deltas : Fin 16 → Nat) (flags fstart fend : Nat) : List CV :=
  batchedHashMany portable.compress sse41.compress 8 key offset deltas
    flags fstart fend inputs 0

/-- Platform::hash_many (src/platform.rs lines 74-125): dispatch to the
selected implementation, flags passed as bits. -/
def Platform.hash_many (p : Platform) (inputs : List (List Block)) (key : CV)
    (offset : Nat) (offset_deltas : Fin 16 → Nat)
    (flags flags_start flags_end : Flags) : List CV :=
  match p with
  | .Portable =>
      portable.hash_many inputs key offset offset_deltas
        flags.bits flags_start.bits flags_end.bits
  | .SSE41 =>
      sse41.hash_many inputs key offset offset_deltas
        flags.bits flags_start.bits flags_end.bits
  | .AVX2 =>
      avx2.hash_many inputs key offset offset_deltas
        flags.bits flags_start.bits flags_end.bits

/-- Modelled from the spec: the Rust hash_many writes the chaining values
into a caller-provided byte slice out (src/platform.rs line 83) whose length
the slice type does not fix; a destination shorter than 32 bytes per input
is a caller contract violation, modelled as none, while a sufficient
destination receives the chaining values contiguously in input order. -/
def Platform.hash_many_into (p : Platform) (inputs : List (List Block))
    (key : CV) (offset : Nat) (offset_deltas : Fin 16 → Nat)
    (flags flags_start flags_end : Flags) (out : List Byte) :
    Option (List Byte) :=
  if KEY_LEN * inputs.length ≤ out.length then
    some (((Platform.hash_many p inputs key offset offset_deltas flags
              flags_start flags_end).map (fun cv => List.ofFn cv)).flatten
          ++ out.drop (KEY_LEN * inputs.length))
  else
    none

/-- From the match arms of Platform::compress and Platform::hash_many
(src/platform.rs lines 54-62 and 85-125): the variants whose dispatch enters
the accelerated entry points that require prior capability detection. -/
def Platform.usesAcceleratedEntry : Platform → Bool
  | .Portable => false
  | .SSE41 => true
  | .AVX2 => true

/-- The capability whose detection the source cites as making the dispatch
of each variant sound. -/
def Platform.capabilityDetected : Platform → CpuFeatures → Bool
  | .Portable, _ => true
  | .SSE41, c => sse41_detected c
  | .AVX2, c => avx2_detected c

/-- All-zero chaining value, for concrete instantiations. -/
def zeroCV : CV := fun _ => 0

/-- All-zero block, for concrete instantiations. -/
def zeroBlock : Block := fun _ => 0

/-- All-zero offset-delta table, for concrete instantiations. -/
def zeroDeltas : Fin 16 → Nat := fun _ => 0

/-- Appending input lists splits the sequential scalar semantics, the second
part starting at the shifted absolute index. -/
theorem mapHashFrom_append (f : CompressFn) (key : CV) (offset : Nat)
    (deltas : Fin 16 → Nat) (flags fstart fend : Nat) :
    ∀ (xs ys : List (List Block)) (i0 : Nat),
      mapHashFrom f key offset deltas flags fstart fend (xs ++ ys) i0
        = mapHashFrom f key offset deltas flags fstart fend xs i0
          ++ mapHashFrom f key offset deltas flags fstart fend ys
              (i0 + xs.length) := by
  intro xs
  induction xs with
  | nil => intro ys i0; simp [mapHashFrom]
  | cons x xs ih =>
      intro ys i0
      simp only [List.cons_append, mapHashFrom, List.length_cons,
        List.append_eq]
      rw [ih ys (i0 + 1),
        show i0 + (xs.length + 1) = i0 + 1 + xs.length by omega]

/-- The batched lock-step execution with a common lane and fallback
compression function computes exactly the sequential scalar semantics. -/
theorem batchedHashMany_eq (f : CompressFn) (d : Nat) (key : CV)
    (offset : Nat) (deltas : Fin 16 → Nat) (flags fstart fend : Nat) :
    ∀ (n : Nat) (inputs : List (List Block)) (i0 : Nat), inputs.length ≤ n →
      batchedHashMany f f d key offset deltas flags fstart fend inputs i0
        = mapHashFrom f key offset deltas flags fstart fend inputs i0 := by
  intro n
  induction n with
  | zero =>
      intro inputs i0 h
      rw [batchedHashMany]
      split
      · next hd => exfalso; omega
      · rfl
  | succ n ih =>
      intro inputs i0 h
      rw [batchedHashMany]
      split
      · next hd =>
          have hlen : (List.take d inputs).length = d := by
            simp [List.length_take]
            omega
          rw [ih (inputs.drop d) (i0 + d) (by simp [List.length_drop]; omega)]
          rw [show i0 + d = i0 + (List.take d inputs).length by rw [hlen]]
          rw [← mapHashFrom_append, List.take_append_drop]
      · rfl

/-- Splitting the sequential scalar semantics at position q. -/
theorem mapHashFrom_split (f : CompressFn) (key : CV) (offset : Nat)
    (deltas : Fin 16 → Nat) (flags fstart fend : Nat)
    (inputs : List (List Block)) (q : Nat) (hq : q ≤ inputs.length) :
    mapHashFrom f key offset deltas flags fstart fend inputs 0
      = mapHashFrom f key offset deltas flags fstart fend (inputs.take q) 0
        ++ mapHashFrom f key offset deltas flags fstart fend
            (inputs.drop q) q := by
  have hlen : (List.take q inputs).length = q := by
    simp [List.length_take]
    omega
  conv_lhs => rw [← List.take_append_drop q inputs]
  rw [mapHashFrom_append, hlen, Nat.zero_add]

/-- Every variant of the dispatcher computes the sequential scalar semantics
of the portable reference. -/
theorem hash_many_eq_scalar (p : Platform) (inputs : List (List Block))
    (key : CV) (offset : Nat) (deltas : Fin 16 → Nat)
    (flags fstart fend : Flags) :
    Platform.hash_many p inputs key offset deltas flags fstart fend
      = mapHashFrom portable.compress key offset deltas
          flags.bits fstart.bits fend.bits inputs 0 := by
  cases p with
  | Portable => rfl
  | SSE41 =>
      exact batchedHashMany_eq portable.compress 4 key offset deltas
        flags.bits fstart.bits fend.bits inputs.length inputs 0 le_rfl
  | AVX2 =>
      exact batchedHashMany_eq portable.compress 8 key offset deltas
        flags.bits fstart.bits fend.bits inputs.length inputs 0 le_rfl

/-- Claim C1: for every input tuple (cv, block, block_len, counter, flags)
and every Platform variant, Platform.compress returns the same 64-byte
output as the Portable variant: each accelerated compression path is
byte-identical to the portable reference implementation. -/
theorem compress_all_variants_equal_portable (p : Platform) (cv : CV)
    (block : Block) (block_len offset : Nat) (flags : Flags) :
    Platform.compress p cv block block_len offset flags
      = Platform.compress .Portable cv block block_len offset flags := by
  cases p <;> rfl

/-- Claim C2: for every Platform variant, input list, key, base offset,
offset-delta table and flags triple, hash_many produces, for each input in
input order, exactly the chaining value of a purely sequential scalar
execution: the blocks of each input compressed in order with the scalar
compression function carrying the running chaining value, flags_start ORed
into the first block and flags_end into the last, with counter equal to the
base offset plus the offset_deltas-derived delta for that input, regardless
of the relationship of the input count to the batch width. -/
theorem hash_many_matches_sequential_scalar (p : Platform)
    (inputs : List (List Block)) (key : CV) (offset : Nat)
    (deltas : Fin 16 → Nat) (flags fstart fend : Flags) :
    Platform.hash_many p inputs key offset deltas flags fstart fend
      = mapHashFrom portable.compress key offset deltas
          flags.bits fstart.bits fend.bits inputs 0 :=
  hash_many_eq_scalar p inputs key offset deltas flags fstart fend

/-- Claim C3: detect probes AVX2 before SSE4.1 and returns the most
accelerated supported variant: AVX2 whenever AVX2 is detected, otherwise
SSE41 whenever SSE4.1 is detected, otherwise Portable; on architectures with
no accelerated path it always returns Portable. -/
theorem detect_returns_best_supported (c : CpuFeatures) :
    (avx2_detected c = true → Platform.detect .x86 c = .AVX2)
  ∧ (avx2_detected c = false → sse41_detected c = true →
      Platform.detect .x86 c = .SSE41)
  ∧ (avx2_detected c = false → sse41_detected c = false →
      Platform.detect .x86 c = .Portable)
  ∧ Platform.detect .other c = .Portable := by
  obtain ⟨a, s⟩ := c
  cases a <;> cases s <;> decide

/-- Witness for claim C3 at a concrete capability vector. -/
theorem detect_returns_best_supported_witness :
    avx2_detected ⟨true, true⟩ = true
      ∧ Platform.detect .x86 ⟨true, true⟩ = .AVX2 :=
  ⟨by decide, (detect_returns_best_supported ⟨true, true⟩).1 (by decide)⟩

/-- Claim C4: simd_degree returns 1 for Portable and a power of two greater
than 1 for each accelerated variant (4 for SSE41, 8 for AVX2), and for every
variant available on an architecture the degree is at most MAX_SIMD_DEGREE
of that architecture (8 on x86 and x86_64, 1 elsewhere). -/
theorem simd_degree_bounds :
    Platform.simd_degree .Portable = 1
  ∧ Platform.simd_degree .SSE41 = 4
  ∧ Platform.simd_degree .AVX2 = 8
  ∧ (∀ p : Platform, p ≠ .Portable →
      1 < p.simd_degree ∧ ∃ k, p.simd_degree = 2 ^ k)
  ∧ ∀ (p : Platform) (a : Arch), p.availableOn a = true →
      p.simd_degree ≤ MAX_SIMD_DEGREE a := by
  refine ⟨rfl, rfl, rfl, ?_, ?_⟩
  · intro p hp
    cases p with
    | Portable => exact absurd rfl hp
    | SSE41 => exact ⟨by decide, 2, rfl⟩
    | AVX2 => exact ⟨by decide, 3, rfl⟩
  · intro p a
    cases p <;> cases a <;> decide

/-- Witness for claim C4 at a concrete variant and architecture. -/
theorem simd_degree_bounds_witness :
    Platform.availableOn .SSE41 .x86 = true
      ∧ Platform.simd_degree .SSE41 ≤ MAX_SIMD_DEGREE .x86 :=
  ⟨by decide, simd_degree_bounds.2.2.2.2 .SSE41 .x86 (by decide)⟩

/-- Claim C5: the accelerated entry points are exercised only through the
dispatcher on a variant whose processor support detect has already
established: whenever detect returns a variant that dispatches into an
accelerated entry point, the capability cited for that variant was detected;
and on architectures without the x86 cfg gates only the Portable variant is
even constructible. -/
theorem accel_dispatch_requires_detection :
    (∀ (arch : Arch) (c : CpuFeatures),
      (Platform.detect arch c).usesAcceleratedEntry = true →
        (Platform.detect arch c).capabilityDetected c = true)
  ∧ ∀ p : Platform, p.availableOn .other = true → p = .Portable := by
  constructor
  · intro arch c
    obtain ⟨a, s⟩ := c
    cases arch <;> cases a <;> cases s <;> decide
  · intro p
    cases p <;> decide

/-- Witness for claim C5 at a concrete capability vector. -/
theorem accel_dispatch_requires_detection_witness :
    (Platform.detect .x86 ⟨false, true⟩).usesAcceleratedEntry = true
      ∧ (Platform.detect .x86 ⟨false, true⟩).capabilityDetected
          ⟨false, true⟩ = true :=
  ⟨by decide,
    accel_dispatch_requires_detection.1 .x86 ⟨false, true⟩ (by decide)⟩

/-- Claim C6: detect is stable: any two calls with the same fixed processor
capabilities return the same Platform variant, so callers may cache the
result without changing behaviour. -/
theorem detect_stable (arch : Arch) (c1 c2 : CpuFeatures) (h : c1 = c2) :
    Platform.detect arch c1 = Platform.detect arch c2 := by rw [h]

/-- Witness for claim C6 at a concrete capability vector. -/
theorem detect_stable_witness :
    (⟨true, false⟩ : CpuFeatures) = ⟨true, false⟩
      ∧ Platform.detect .x86 ⟨true, false⟩
          = Platform.detect .x86 ⟨true, false⟩ :=
  ⟨rfl, detect_stable .x86 ⟨true, false⟩ ⟨true, false⟩ rfl⟩

/-- Claim C7: for any fixed variant, compress is a deterministic function of
its five inputs: two calls with identical inputs return identical 64-byte
outputs. The embedding of Platform::compress as a total function on values
reflects the absence of observable mutation and allocation in the source. -/
theorem compress_deterministic (p : Platform) (cv1 cv2 : CV) (b1 b2 : Block)
    (l1 l2 o1 o2 : Nat) (f1 f2 : Flags) (hcv : cv1 = cv2) (hb : b1 = b2)
    (hl : l1 = l2) (ho : o1 = o2) (hf : f1 = f2) :
    Platform.compress p cv1 b1 l1 o1 f1
      = Platform.compress p cv2 b2 l2 o2 f2 := by
  rw [hcv, hb, hl, ho, hf]

/-- Witness for claim C7 at concrete inputs. -/
theorem compress_deterministic_witness :
    zeroCV = zeroCV
      ∧ Platform.compress .SSE41 zeroCV zeroBlock 0 0 ⟨0⟩
          = Platform.compress .SSE41 zeroCV zeroBlock 0 0 ⟨0⟩ :=
  ⟨rfl, compress_deterministic .SSE41 zeroCV zeroCV zeroBlock zeroBlock
    0 0 0 0 ⟨0⟩ ⟨0⟩ rfl rfl rfl rfl rfl⟩

/-- Claim C8 as stated fails on the destination buffer: hash_many takes its
destination as an arbitrary-length byte slice, so a destination shorter than
32 bytes per input is expressible at a well-typed call site and is rejected
only at run time — here a one-input call with an empty destination. -/
theorem hash_many_out_too_small :
    Platform.hash_many_into .Portable [[zeroBlock]] zeroCV 0 zeroDeltas
      ⟨0⟩ ⟨0⟩ ⟨0⟩ [] = none := by
  rfl

/-- Claim C8 (amended): the chaining value, block and offset-delta table
sizes are fixed by their types (32 bytes, 64 bytes, 16 entries), so wrong
sizes for those cannot arise at a well-typed call site; the destination
buffer however is an arbitrary-length slice, and a call succeeds exactly
when it holds at least 32 bytes per input — a smaller destination is a
runtime contract violation, not a compile-time impossibility. -/
theorem fixed_size_inputs_and_runtime_out_check :
    (∀ cv : CV, (List.ofFn cv).length = 32)
  ∧ (∀ b : Block, (List.ofFn b).length = 64)
  ∧ (∀ d : Fin 16 → Nat, (List.ofFn d).length = 16)
  ∧ ∀ (p : Platform) (inputs : List (List Block)) (key : CV) (offset : Nat)
      (deltas : Fin 16 → Nat) (fl fs fe : Flags) (out : List Byte),
      (Platform.hash_many_into p inputs key offset deltas fl fs fe
          out).isSome = true ↔ KEY_LEN * inputs.length ≤ out.length := by
  refine ⟨fun _ => List.length_ofFn _, fun _ => List.length_ofFn _,
    fun _ => List.length_ofFn _, ?_⟩
  intro p inputs key offset deltas fl fs fe out
  unfold Platform.hash_many_into
  split <;> rename_i h <;> simp [h]

/-- Claim C9: when the input count is not a multiple of the degree of the
selected variant, the leftover inputs past the last full batch are produced
by the plain scalar path built on the compress function of that variant, and
the combined output is identical to the full sequential scalar reference. -/
theorem hash_many_leftover_scalar_fallback (p : Platform)
    (inputs : List (List Block)) (key : CV) (offset : Nat)
    (deltas : Fin 16 → Nat) (flags fstart fend : Flags) :
    (Platform.hash_many p inputs key offset deltas flags fstart fend
       = Platform.hash_many p
           (inputs.take (inputs.length / p.simd_degree * p.simd_degree))
           key offset deltas flags fstart fend
         ++ mapHashFrom
             (fun cv b bl ctr fl => Platform.compress p cv b bl ctr ⟨fl⟩)
             key offset deltas flags.bits fstart.bits fend.bits
             (inputs.drop (inputs.length / p.simd_degree * p.simd_degree))
             (inputs.length / p.simd_degree * p.simd_degree))
  ∧ Platform.hash_many p inputs key offset deltas flags fstart fend
      = portable.hash_many inputs key offset deltas
          flags.bits fstart.bits fend.bits := by
  have hq : inputs.length / p.simd_degree * p.simd_degree ≤ inputs.length :=
    Nat.div_mul_le_self _ _
  constructor
  · rw [hash_many_eq_scalar p inputs key offset deltas flags fstart fend,
      hash_many_eq_scalar p _ key offset deltas flags fstart fend]
    cases p
    · exact mapHashFrom_split portable.compress key offset deltas
        flags.bits fstart.bits fend.bits inputs _ hq
    · exact mapHashFrom_split portable.compress key offset deltas
        flags.bits fstart.bits fend.bits inputs _ hq
    · exact mapHashFrom_split portable.compress key offset deltas
        flags.bits fstart.bits fend.bits inputs _ hq
  · exact hash_many_eq_scalar p inputs key offset deltas flags fstart fend

/-- Claim C10: single-block compression for the AVX2 variant is dispatched
to the same SSE4.1 implementation as the SSE41 variant (the two variants
share one match arm in Platform::compress), so AVX2 compress output equals
SSE41 compress output on every input, and both are exactly the SSE4.1
implementation applied to the flag bits. -/
theorem avx2_compress_dispatches_to_sse41 (cv : CV) (block : Block)
    (block_len offset : Nat) (flags : Flags) :
    Platform.compress .AVX2 cv block block_len offset flags
      = Platform.compress .SSE41 cv block block_len offset flags
  ∧ Platform.compress .AVX2 cv block block_len offset flags
      = sse41.compress cv block block_len offset flags.bits := ⟨rfl, rfl⟩
